import Mathlib

/-!
Verification of the measurement grid-grouping / valid-data geometry engine and
the intensity-stretch thumbnail range computation of `eodatasets3/images.py`.

The Python code is shallowly embedded: the `MeasurementBundler` class becomes a
record threaded explicitly through its methods, numpy arrays become lists (2-D
arrays are stored flattened with their shape carried alongside, as all the
operations under study are elementwise), floating-point pixel values become a
sum of a rational value and a NaN marker (the only float behaviour the code
relies on is the NaN/finite distinction and IEEE inequality), Python dicts
become insertion-ordered association lists (Python dicts preserve insertion
order; `dict.popitem` pops the most recently inserted entry), and exceptions
become explicit error results returned together with the state at the moment of
the raise.  Shapely geometries are points-sets over ℚ × ℚ; the shapely and
rasterio primitives themselves (vectorization, convex hull, buffering,
simplification) are external library calls and are passed in as opaque-to-the-
theorem function parameters, while the structure that `images.py` itself builds
out of them (ordering of steps, clipping, the affine transform) is embedded
faithfully.
-/

-- Equality of `Except` results is decidable when both components' equalities
-- are; it is used to evaluate the embedded fallible methods at concrete inputs.
deriving instance DecidableEq for Except

namespace Eod

/-- A pixel value: either a finite numeric value or NaN.  Models the values a
numpy array cell can hold as far as `images.py` observes them. -/
inductive Val where
  | fin (q : ℚ) : Val
  | nan : Val
deriving DecidableEq

/-- `numpy.isfinite` on a single value. -/
def isFiniteVal : Val → Bool
  | .fin _ => true
  | .nan => false

/-- `math.isnan` on a single value. -/
def isNanVal : Val → Bool
  | .fin _ => false
  | .nan => true

/-- IEEE `!=` as numpy's elementwise `!=` computes it: NaN compares unequal to
everything, including itself. -/
def ieeeNe : Val → Val → Bool
  | .fin a, .fin b => decide (a ≠ b)
  | _, _ => true

/-- The six coefficients of a rasterio `Affine` transform:
`x' = a*x + b*y + xoff`, `y' = d*x + e*y + yoff`. -/
structure Affine where
  a : ℚ
  b : ℚ
  d : ℚ
  e : ℚ
  xoff : ℚ
  yoff : ℚ
deriving DecidableEq

/-- A coordinate reference system as `images.py` observes it through odc-geo:
either built from an EPSG code, or some other representation whose `.epsg`
property may or may not resolve to a code. -/
inductive Crs where
  | fromEpsg (code : Nat) : Crs
  | other (rep : String) (epsgOf : Option Nat) : Crs
deriving DecidableEq

/-- The `.epsg` property of an odc-geo CRS. -/
def Crs.epsg : Crs → Option Nat
  | .fromEpsg c => some c
  | .other _ e => e

/-- An odc-geo `GeoBox`: pixel shape `(rows, cols)`, affine transform and CRS.
Equality of all three fields is what groups measurements into one grid. -/
structure Grid where
  shape : Nat × Nat
  affine : Affine
  crs : Crs
deriving DecidableEq

/-- `record_image`'s normalisation step (`images.py` lines 241-242): when the
grid's CRS resolves to an EPSG code, rebuild the grid from that code alone so
that differently-represented but equal CRSes group together. -/
def normalizeGrid (g : Grid) : Grid :=
  match g.crs.epsg with
  | some c => { shape := g.shape, affine := g.affine, crs := Crs.fromEpsg c }
  | none => g

/-- `_MeasurementLocation`: the path and optional layer recorded per band. -/
structure MeasLoc where
  path : String
  layer : Option String
deriving DecidableEq

/-- The per-grid `band_name -> _MeasurementLocation` dict (insertion order). -/
def Measurements := List (String × MeasLoc)
deriving DecidableEq

/-- A per-grid boolean valid-data mask: shaped like its grid, stored flattened
(row-major) with the shape alongside, since every operation on it in
`images.py` is elementwise or shape-only. -/
structure Mask where
  rows : Nat
  cols : Nat
  data : List Bool
deriving DecidableEq

/-- The pixel array handed to `record_image`: its dtype's floating-ness (which
decides the default nodata) and its cells, flattened. -/
structure Img where
  isFloat : Bool
  rows : Nat
  cols : Nat
  data : List Val
deriving DecidableEq

/-- The `MeasurementBundler`'s state: measurements grouped per grid, and the
valid-data mask per grid, both insertion-ordered as Python dicts are. -/
structure Bundler where
  measurementsPerGrid : List (Grid × Measurements)
  maskByGrid : List (Grid × Mask)
deriving DecidableEq

/-- The errors the embedded methods can raise.  `duplicateMeasurement` models
the `ValueError` of `record_image` (the spec's `DuplicateMeasurementError`):
it carries the band name, the original recorded location and the newly offered
path, as the exception message does.  `tooManyGrids` models the
`NotImplementedError` of `_as_named_grids` (the spec's `TooManyGridsError`);
`emptyBundle` models the `IndexError` that `pop(0)` on an empty grid list
would raise. -/
inductive Err where
  | duplicateMeasurement (name : String) (original : MeasLoc) (newPath : String) : Err
  | tooManyGrids : Err
  | emptyBundle : Err
deriving DecidableEq

/-- Lookup in an association list (Python `d[k]` / `k in d`). -/
def assocFind {α β : Type} [DecidableEq α] (l : List (α × β)) (k : α) : Option β :=
  match l with
  | [] => none
  | (k', v) :: rest => if k' = k then some v else assocFind rest k

/-- Assignment `d[k] = v` on an insertion-ordered dict: replace in place when
the key exists, append otherwise. -/
def assocSet {α β : Type} [DecidableEq α] (l : List (α × β)) (k : α) (v : β) :
    List (α × β) :=
  match l with
  | [] => [(k, v)]
  | (k', v') :: rest =>
    if k' = k then (k, v) :: rest else (k', v') :: assocSet rest k v

/-- `defaultdict` access-and-mutate: apply `f` to the entry at `k`, creating it
from the default `d` first when absent. -/
def assocUpd {α β : Type} [DecidableEq α] (l : List (α × β)) (k : α) (f : β → β)
    (d : β) : List (α × β) :=
  match l with
  | [] => [(k, f d)]
  | (k', v') :: rest =>
    if k' = k then (k', f v') :: rest else (k', v') :: assocUpd rest k f d

/-- The duplicate-name scan at the top of `record_image` (lines 235-240): walk
the per-grid dicts in insertion order and return the already-recorded location
of `name`, if any. -/
def findDup (m : List (Grid × Measurements)) (name : String) : Option MeasLoc :=
  match m with
  | [] => none
  | (_, ms) :: rest =>
    match assocFind ms name with
    | some loc => some loc
    | none => findDup rest name

/-- The defaulting of `nodata` in `_expand_valid_data_mask` (lines 250-251):
NaN for floating-point data, `0` otherwise, when unspecified. -/
def defaultNodata (img : Img) (nodata : Option Val) : Val :=
  match nodata with
  | some v => v
  | none => if img.isFloat then Val.nan else Val.fin 0

/-- The per-pixel validity of `_expand_valid_data_mask` (lines 253-256):
`numpy.isfinite(img)` when the nodata sentinel is NaN, `img != nodata`
otherwise. -/
def valid_values (img : Img) (nd : Val) : List Bool :=
  if isNanVal nd then img.data.map isFiniteVal
  else img.data.map (fun x => ieeeNe x nd)

/-- `MeasurementBundler._expand_valid_data_mask` (lines 247-263): default the
nodata, compute the validity mask, OR it into the grid's existing coverage
mask (or install it as the mask when the grid has none yet). -/
def expand_valid_data_mask (s : Bundler) (grid : Grid) (img : Img)
    (nodata : Option Val) : Bundler :=
  let nd := defaultNodata img nodata
  let vv := valid_values img nd
  let mask : Mask :=
    match assocFind s.maskByGrid grid with
    | none => { rows := img.rows, cols := img.cols, data := vv }
    | some m => { rows := m.rows, cols := m.cols, data := List.zipWith (· || ·) m.data vv }
  { measurementsPerGrid := s.measurementsPerGrid,
    maskByGrid := assocSet s.maskByGrid grid mask }

/-- `MeasurementBundler.record_image` (lines 225-245).  Returns the state at
the point the method finished or raised, together with the raised error if
any: the duplicate-name check runs before any mutation, then the grid is
CRS-normalised, the measurement recorded, and (when `expandValid`) the
coverage mask grown. -/
def record_image (s : Bundler) (name : String) (grid : Grid) (path : String)
    (img : Img) (layer : Option String) (nodata : Option Val)
    (expandValid : Bool) : Bundler × Option Err :=
  match findDup s.measurementsPerGrid name with
  | some original => (s, some (Err.duplicateMeasurement name original path))
  | none =>
    let grid := normalizeGrid grid
    let s₁ : Bundler :=
      { measurementsPerGrid :=
          assocUpd s.measurementsPerGrid grid
            (fun ms => assocSet ms name { path := path, layer := layer }) [],
        maskByGrid := s.maskByGrid }
    let s₂ := if expandValid then expand_valid_data_mask s₁ grid img nodata else s₁
    (s₂, none)

/-- `maskOf s g`: the coverage mask currently recorded for grid `g`. -/
def maskOf (s : Bundler) (g : Grid) : Option Mask :=
  assocFind s.maskByGrid g

/-- Number of true pixels of a coverage mask. -/
def countTrue (m : Mask) : Nat :=
  m.data.count true

/-- `MeasurementBundler.iter_names` (lines 413-417): all known measurement
names, in grid-then-band insertion order. -/
def iter_names (m : List (Grid × Measurements)) : List String :=
  (m.map (fun gm => gm.2.map Prod.fst)).foldr (· ++ ·) []

/-! ### Grid naming (`_find_a_common_name`, `_as_named_grids`) -/

/-- Longest common starting run of two character lists. -/
def commonStart2 : List Char → List Char → List Char
  | [], _ => []
  | _, [] => []
  | a :: as, b :: bs => if a = b then a :: commonStart2 as bs else []

/-- `os.path.commonprefix`: longest common starting string of a list of
strings (empty for the empty list). -/
def commonStart (l : List String) : String :=
  match l with
  | [] => ""
  | s :: rest => ⟨rest.foldl (fun acc t => commonStart2 acc t.data) s.data⟩

/-- `_common_suffix` (lines 149-150): common starting string of the reversed
strings, reversed back. -/
def common_suffix (l : List String) : String :=
  match l with
  | [] => ""
  | s :: rest =>
    ⟨(rest.foldl (fun acc t => commonStart2 acc t.data.reverse) s.data.reverse).reverse⟩

/-- `str.startswith p` on character lists. -/
def startsWithChars : List Char → List Char → Bool
  | [], _ => true
  | _, [] => false
  | a :: as, b :: bs => a = b && startsWithChars as bs

/-- `str.endswith p`. -/
def endsWithChars (p s : List Char) : Bool :=
  startsWithChars p.reverse s.reverse

/-- `str.strip("_:")`: remove leading and trailing `_` and `:` characters. -/
def stripDelims (s : String) : String :=
  let isDelim : Char → Bool := fun c => c = '_' || c = ':'
  ⟨((s.data.dropWhile isDelim).reverse.dropWhile isDelim).reverse⟩

/-- Stable insertion for a descending sort by `key`: an element keeps its
place in front of later elements of equal key, exactly as Python's stable
`sorted(..., reverse=True)` orders them. -/
def insDesc {α : Type} (key : α → Nat) (x : α) : List α → List α
  | [] => [x]
  | y :: ys => if key x < key y then y :: insDesc key x ys else x :: y :: ys

/-- Stable descending sort by `key`: Python's `sorted(l, key=key, reverse=True)`. -/
def stableSortDesc {α : Type} (key : α → Nat) : List α → List α
  | [] => []
  | x :: xs => insDesc key x (stableSortDesc key xs)

/-- `_find_a_common_name` (lines 153-200): try the common starting string and
the common suffix of the group, reject a candidate that some name outside the
group also starts/ends with, strip `_`/`:` delimiters, and return the longest
surviving candidate (the starting string wins ties, as Python's stable sort
keeps it first); an empty winner is no name at all. -/
def find_a_common_name (group : List String) (allNames : List String) :
    Option String :=
  let nonGroup := allNames.filter (fun n => ¬ group.contains n)
  let pre := commonStart group
  let options₀ : List String :=
    if nonGroup.any (fun n => startsWithChars pre.data n.data) then [] else [pre]
  let suf := common_suffix group
  let options₁ : List String :=
    options₀ ++ (if nonGroup.any (fun n => endsWithChars suf.data n.data) then [] else [suf])
  if options₁.isEmpty then none
  else
    match stableSortDesc String.length (options₁.map stripDelims) with
    | [] => none
    | best :: _ => if best = "" then none else some best

/-- `"_".join l`. -/
def joinUnderscore (l : List String) : String :=
  match l with
  | [] => ""
  | s :: rest => rest.foldl (fun acc t => acc ++ "_" ++ t) s

/-- The grid-name candidate of the first naming stage of `_as_named_grids`
(lines 287-295): a single-measurement grid is named after its measurement
(`"_".join` of the one key), a multi-measurement grid by
`_find_a_common_name`. -/
def stage1NameOf (ms : Measurements) (allNames : List String) : Option String :=
  if ms.length = 1 then some (joinUnderscore (ms.map Prod.fst))
  else find_a_common_name (ms.map Prod.fst) allNames

/-- The first naming stage's loop (lines 286-304): accumulate named grids,
abandoning the whole stage (`none`) when a grid gets no candidate or the
candidate collides with an already-assigned name. -/
def stage1 (allNames : List String) :
    List (String × Grid × Measurements) → List (Grid × Measurements) →
    Option (List (String × Grid × Measurements)) :=
  fun acc l =>
    match l with
    | [] => some acc
    | (g, ms) :: rest =>
      match stage1NameOf ms allNames with
      | none => none
      | some n =>
        if (acc.map Prod.fst).contains n then none
        else stage1 allNames (acc ++ [(n, (g, ms))]) rest

/-- Decimal-style rendering of a rational resolution, standing in for Python's
`f"{res_x}"` on a float.  The naming code only formats a resolution directly
when it is ≤ 1 (larger ones are truncated to `int` first); integral values
render as Python floats do (`"1.0"`), non-integral ones are rendered as a
fraction, which differs in spelling (not in injectivity on distinct
resolutions) from Python's decimal float repr. -/
def ratRepr (q : ℚ) : String :=
  if q.den = 1 then toString q.num ++ ".0"
  else toString q.num ++ "/" ++ toString q.den

/-- The resolution grid name of the second naming stage (lines 308-312):
`res_x` is the absolute x pixel size (the affine's `a` coefficient), truncated
to an integer when above 1, then formatted. -/
def resName (g : Grid) : String :=
  let rx : ℚ := |g.affine.a|
  if rx > 1 then toString ⌊rx⌋ else ratRepr rx

/-- The second naming stage's loop (lines 307-320): name every remaining grid
by its resolution, abandoning the stage on a collision. -/
def stage2 :
    List (String × Grid × Measurements) → List (Grid × Measurements) →
    Option (List (String × Grid × Measurements)) :=
  fun acc l =>
    match l with
    | [] => some acc
    | (g, ms) :: rest =>
      let n := resName g
      if (acc.map Prod.fst).contains n then none
      else stage2 (acc ++ [(n, (g, ms))]) rest

/-- `string.ascii_letters`, the name pool of the alphabetic fallback (line
324): the 26 lowercase letters followed by the 26 uppercase ones. -/
def asciiLetters : List String :=
  "abcdefghijklmnopqrstuvwxyzABCDEFGHIJKLMNOPQRSTUVWXYZ".data.map
    (fun c => String.singleton c)

/-- `MeasurementBundler._as_named_grids` (lines 265-335) as a function of the
per-grid measurement dict: order grids from most to fewest measurements
(stably, so ties keep insertion order), make the most-populated grid
`"default"`, then try the common-name stage, the resolution stage and finally
sequential letter names, raising when more grids remain than there are ascii
letters.  An empty bundler would make `pop(0)` raise; that is the
`emptyBundle` error. -/
def as_named_gridsOf (m : List (Grid × Measurements)) :
    Except Err (List (String × Grid × Measurements)) :=
  match stableSortDesc (fun gm => gm.2.length) m with
  | [] => .error Err.emptyBundle
  | defaultGrid :: rest =>
    if rest.isEmpty then .ok [("default", defaultGrid)]
    else
      match stage1 (iter_names m) [("default", defaultGrid)] rest with
      | some l => .ok l
      | none =>
        match stage2 [("default", defaultGrid)] rest with
        | some l => .ok l
        | none =>
          if asciiLetters.length < rest.length then .error Err.tooManyGrids
          else .ok (("default", defaultGrid) :: asciiLetters.zip rest)

/-- `_as_named_grids` on a bundler state (it reads only the measurement map). -/
def as_named_grids (s : Bundler) :
    Except Err (List (String × Grid × Measurements)) :=
  as_named_gridsOf s.measurementsPerGrid

/-! ### Valid-data geometry (`ValidDataMethod`, `_grid_to_poly`,
`consume_and_get_valid_data`) -/

/-- `ValidDataMethod` (lines 33-62). -/
inductive ValidDataMethod where
  | thorough : ValidDataMethod
  | filled : ValidDataMethod
  | convex_hull : ValidDataMethod
  | bounds : ValidDataMethod
deriving DecidableEq

/-- A point of a shapely geometry, in exact coordinates. -/
abbrev Pt := ℚ × ℚ

/-- A shapely geometry as the set of points it covers. -/
abbrev Geom := Set Pt

/-- `shapely.affinity.affine_transform` on one point, with the coefficient
tuple `(a, b, d, e, xoff, yoff)` exactly as `_grid_to_poly` passes it
(lines 451-461): `x' = a*x + b*y + xoff`, `y' = d*x + e*y + yoff`. -/
def affinePt (A : Affine) (p : Pt) : Pt :=
  (A.a * p.1 + A.b * p.2 + A.xoff, A.d * p.1 + A.e * p.2 + A.yoff)

/-- A geometry transformed pointwise by an affine map. -/
def affineImage (A : Affine) (g : Geom) : Geom :=
  Set.image (affinePt A) g

/-- `shapely.geometry.box(0, 0, sx, sy)`: the filled axis-aligned rectangle. -/
def pixelBox (sx sy : ℚ) : Geom :=
  { p : Pt | 0 ≤ p.1 ∧ p.1 ≤ sx ∧ 0 ≤ p.2 ∧ p.2 ≤ sy }

/-- A filled axis-aligned rectangle from `(left, bottom, right, top)` bounds,
as `shapely.geometry.box(*bounds)` builds it. -/
def boxSet (b : ℚ × ℚ × ℚ × ℚ) : Geom :=
  { p : Pt | b.1 ≤ p.1 ∧ p.1 ≤ b.2.2.1 ∧ b.2.1 ≤ p.2 ∧ p.2 ≤ b.2.2.2 }

/-- `GeoBox.boundingbox` of odc-geo as `(left, bottom, right, top)`: the
extremes of the four pixel-extent corners mapped through the grid's affine
transform into CRS coordinates. -/
def crsBoundingBox (g : Grid) : ℚ × ℚ × ℚ × ℚ :=
  let rows : ℚ := g.shape.1
  let cols : ℚ := g.shape.2
  let c₀ := affinePt g.affine (0, 0)
  let c₁ := affinePt g.affine (cols, 0)
  let c₂ := affinePt g.affine (0, rows)
  let c₃ := affinePt g.affine (cols, rows)
  (min (min c₀.1 c₁.1) (min c₂.1 c₃.1),
   min (min c₀.2 c₁.2) (min c₂.2 c₃.2),
   max (max c₀.1 c₁.1) (max c₂.1 c₃.1),
   max (max c₀.2 c₁.2) (max c₂.2 c₃.2))

/-- The external raster/geometry primitives `images.py` calls but does not
implement: vectorization of a mask into a pixel-space geometry
(`rasterio.features.shapes` + repair + `unary_union`), shapely's convex hull,
the one-pixel square-cap/bevel-join buffer, the one-pixel-tolerance
simplification, scipy's `binary_fill_holes` and scikit-image's
`convex_hull_image`.  The theorems hold for every interpretation of these. -/
structure GeomOps where
  vectorize : Mask → Geom
  convexHull : Geom → Geom
  bufferOnePixel : Geom → Geom
  simplifyOnePixel : Geom → Geom
  fillHoles : Mask → Mask
  convexHullImage : Mask → Mask

/-- `_grid_to_poly` (lines 432-462): vectorize the mask, take the convex hull,
buffer by one pixel, simplify with one-pixel tolerance, intersect with the
pixel-space bounding box `box(0, 0, shape_x, shape_y)`, then transform into
CRS space with the grid's affine coefficients. -/
def grid_to_poly (ops : GeomOps) (grid : Grid) (mask : Mask) : Geom :=
  let shape := ops.vectorize mask
  let geom := ops.convexHull shape
  let geom := ops.bufferOnePixel geom
  let geom := ops.simplifyOnePixel geom
  let geom := geom ∩ pixelBox (mask.cols : ℚ) (mask.rows : ℚ)
  affineImage grid.affine geom

/-- One grid's geometry inside the consumption loop (lines 391-409): `bounds`
ignores the mask and boxes the grid's CRS bounding box; the other methods
preprocess the mask (`filled` fills holes, `convex_hull` takes the image
convex hull, `thorough` nothing — the `astype("uint8")` casts do not change
which pixels are truthy) and run `_grid_to_poly`. -/
def per_grid_geom (ops : GeomOps) (method : ValidDataMethod) (grid : Grid)
    (mask : Mask) : Geom :=
  match method with
  | .bounds => boxSet (crsBoundingBox grid)
  | .filled => grid_to_poly ops grid (ops.fillHoles mask)
  | .convex_hull => grid_to_poly ops grid (ops.convexHullImage mask)
  | .thorough => grid_to_poly ops grid mask

/-- `shapely.ops.unary_union` of a list of geometries (the empty list unions
to the empty geometry). -/
def unionAll (l : List Geom) : Geom :=
  { p : Pt | ∃ g ∈ l, p ∈ g }

/-- `MeasurementBundler.consume_and_get_valid_data` (lines 375-411): pop every
mask out of `mask_by_grid` (`dict.popitem` pops the most recently inserted
entry, so the grids are processed in reverse insertion order, each mask
dropped from the registry as it is turned into geometry), and return the
unary union of the per-grid geometries together with the drained state. -/
def consume_and_get_valid_data (ops : GeomOps) (method : ValidDataMethod)
    (s : Bundler) : Geom × Bundler :=
  let geoms := s.maskByGrid.reverse.map (fun gm => per_grid_geom ops method gm.1 gm.2)
  (unionAll geoms,
   { measurementsPerGrid := s.measurementsPerGrid, maskByGrid := [] })

/-! ### Thumbnail stretch (`read_valid_mask_and_value_range`) -/

/-- Ascending stable insertion of an integer into a sorted list. -/
def insAsc (x : Int) : List Int → List Int
  | [] => [x]
  | y :: ys => if y ≤ x then y :: insAsc x ys else x :: y :: ys

/-- Ascending sort of the valid pixel values (as `numpy.percentile` sorts its
input internally). -/
def sortAsc : List Int → List Int
  | [] => []
  | x :: xs => insAsc x (sortAsc xs)

/-- `numpy.percentile(data, q, method="nearest")` for one percentile `q`
(0 ≤ q ≤ 100): the sorted element at the virtual index `q/100 * (n-1)`
rounded to the nearest integer.  (The claims' concrete inputs keep the
virtual index away from halfway points, where numpy's tie-rounding could
differ from `round`.) -/
def pctNearest (data : List Int) (q : ℚ) : Int :=
  let s := sortAsc data
  match s with
  | [] => 0
  | _ =>
    s.getD (round (q * ((s.length : ℚ) - 1) / 100)).toNat 0

/-- `array[mask]`: the elements of `a` at the true positions of `m`, in
order. -/
def selectMasked (m : List Bool) (a : List Int) : List Int :=
  (m.zip a).foldr (fun p acc => if p.1 then p.2 :: acc else acc) []

/-- `valid_data_mask &= array != nodata` (line 938): AND one band's nodata
inequality into the running mask. -/
def bandAnd (m : List Bool) (img : List Int × Int) : List Bool :=
  List.zipWith (fun b x => b && (x != img.2)) m img.1

/-- Python's binary `max` on integers (kernel-reducible, unlike the generic
lattice `max`). -/
def pyMax (a b : Int) : Int := if a ≤ b then b else a

/-- Python's binary `min` on integers. -/
def pyMin (a b : Int) : Int := if b ≤ a then b else a

/-- The widest possible integer range `(-sys.maxsize - 1, sys.maxsize)`
seeding the calculated range (line 936). -/
def seedRange : Int × Int :=
  (-9223372036854775808, 9223372036854775807)

/-- The per-band body of `read_valid_mask_and_value_range` (lines 937-957):
AND the band's validity into the shared mask, select the band's values under
the mask as updated so far, and — unless every selected value is zero
(`the_data.any()` on a numeric array tests non-zeroness) — fold the band's
nearest-percentiles into the running (max of lows, min of highs). -/
def bandStep (percentiles : Option (ℚ × ℚ)) (acc : List Bool × (Int × Int))
    (img : List Int × Int) : List Bool × (Int × Int) :=
  let m := bandAnd acc.1 img
  match percentiles with
  | none => (m, acc.2)
  | some lohi =>
    let theData := selectMasked m img.1
    if theData.any (fun x => x != 0) then
      let low := pctNearest theData lohi.1
      let high := pctNearest theData lohi.2
      (m, (pyMax low acc.2.1, pyMin high acc.2.2))
    else (m, acc.2)

/-- `read_valid_mask_and_value_range` (lines 928-959): one pass over the
bands, threading the shared validity mask and the running percentile range
(the function mutates the caller's mask in place and returns the range; here
both come back as a pair). -/
def read_valid_mask_and_value_range (mask : List Bool)
    (images : List (List Int × Int)) (percentiles : Option (ℚ × ℚ)) :
    List Bool × (Int × Int) :=
  images.foldl (bandStep percentiles) (mask, seedRange)

/-- The fully-combined validity mask: every band's nodata inequality AND-ed
into the initial mask. -/
def maskAfter (mask : List Bool) (images : List (List Int × Int)) : List Bool :=
  images.foldl bandAnd mask

/-- The interleaved range computation stated on its own: band `i`'s
percentiles are taken over the values selected by the mask restricted by
bands `0..i` only (not by the bands after it).  `read_valid_mask_and_value_range`
is proven equal to `(maskAfter, interleavedRange)`. -/
def interleavedRange (lo hi : ℚ) :
    List Bool → Int × Int → List (List Int × Int) → Int × Int :=
  fun mask r l =>
    match l with
    | [] => r
    | img :: rest =>
      let m := bandAnd mask img
      let theData := selectMasked m img.1
      let r' :=
        if theData.any (fun x => x != 0) then
          (pyMax (pctNearest theData lo) r.1, pyMin (pctNearest theData hi) r.2)
        else r
      interleavedRange lo hi m r' rest

/-- The stretch range the claim describes: build the combined validity mask
across ALL bands first, and only then take each band's percentiles over the
values selected by that fully-combined mask, folding (max of lows, min of
highs) from the widest seed.  Written from the claim's words, to compare with
the code's `read_valid_mask_and_value_range`. -/
def claimedStretchRange (mask : List Bool) (images : List (List Int × Int))
    (lo hi : ℚ) : Int × Int :=
  let combined := maskAfter mask images
  images.foldl
    (fun r img =>
      let theData := selectMasked combined img.1
      (pyMax (pctNearest theData lo) r.1, pyMin (pctNearest theData hi) r.2))
    seedRange

/-! ### The first element attaining the maximal key

`_as_named_grids` sorts the grids by measurement count with Python's stable
`sorted(..., reverse=True)`, and pops the head as the `"default"` grid.  The
specification's reading — the grid with the most measurements, ties broken by
insertion order — is the first list element whose key is maximal; the two are
proven to agree. -/

/-- The first element of `l` whose key is greater or equal to every element's
key: the maximum, with ties broken by position. -/
def firstMaxBy {α : Type} (key : α → Nat) (l : List α) : Option α :=
  l.find? (fun x => l.all (fun y => key y ≤ key x))

/-! ### Concrete instances used by the claims' examples and witnesses -/

/-- A fresh, empty bundler. -/
def emptyBundler : Bundler :=
  { measurementsPerGrid := [], maskByGrid := [] }

/-- A 100×100 grid at 10-unit resolution (EPSG-coded CRS). -/
def gridA : Grid :=
  { shape := (100, 100),
    affine := { a := 10, b := 0, d := 0, e := -10, xoff := 0, yoff := 0 },
    crs := Crs.fromEpsg 32655 }

/-- A 50×50 grid at 20-unit resolution, distinct from `gridA`. -/
def gridB : Grid :=
  { shape := (50, 50),
    affine := { a := 20, b := 0, d := 0, e := -20, xoff := 0, yoff := 0 },
    crs := Crs.fromEpsg 32655 }

/-- A one-pixel integer image with a single valid pixel. -/
def imEx : Img :=
  { isFloat := false, rows := 1, cols := 1, data := [Val.fin 1] }

/-- The example of §8 of the spec: `nbar_blue` and `nbar_red` recorded on
grid A, then `nbart_blue` on grid B. -/
def sExample : Bundler :=
  (record_image
    (record_image
      (record_image emptyBundler "nbar_blue" gridA "nbar_blue.tif" imEx none none false).1
      "nbar_red" gridA "nbar_red.tif" imEx none none false).1
    "nbart_blue" gridB "nbart_blue.tif" imEx none none false).1

/-- A measurement location shared by the bulk-constructed registries. -/
def loc0 : MeasLoc := { path := "p", layer := none }

/-- The i-th of a family of pairwise-distinct grids sharing one resolution
(so that the resolution naming stage always collides). -/
def grid27 (i : Nat) : Grid :=
  { shape := (1, i + 1),
    affine := { a := 10, b := 0, d := 0, e := -10, xoff := 0, yoff := 0 },
    crs := Crs.fromEpsg 32655 }

/-- A registry of 27 distinct grids that neither the common-name stage (its
most-frequent non-default grid's band names `ab`/`ba` share no usable
prefix or suffix) nor the resolution stage (all resolutions equal) can name:
grid 0 carries three measurements (so it becomes `"default"`), grid 1 two,
grids 2..26 one each. -/
def state27 : Bundler :=
  { measurementsPerGrid :=
      (grid27 0, [("m1", loc0), ("m2", loc0), ("m3", loc0)]) ::
      (grid27 1, [("ab", loc0), ("ba", loc0)]) ::
      (List.range 25).map (fun i => (grid27 (i + 2), [("s" ++ toString (i + 2), loc0)])),
    maskByGrid := [] }

/-- A trivial interpretation of the external geometry primitives, used to
instantiate theorems quantified over `GeomOps` at a concrete input. -/
def opsTriv : GeomOps :=
  { vectorize := fun _ => ∅,
    convexHull := id,
    bufferOnePixel := id,
    simplifyOnePixel := id,
    fillHoles := id,
    convexHullImage := id }

/-- A 2×3 grid at 10-unit resolution: its CRS-space bounding box is
`(0, -20, 30, 0)`, while its pixel-space bounding box is `(0, 0, 3, 2)`. -/
def gridC : Grid :=
  { shape := (2, 3),
    affine := { a := 10, b := 0, d := 0, e := -10, xoff := 0, yoff := 0 },
    crs := Crs.fromEpsg 32655 }

/-- A bundler holding one coverage mask, on `gridC`. -/
def stateC : Bundler :=
  { measurementsPerGrid := [(gridC, [("band", loc0)])],
    maskByGrid := [(gridC, { rows := 2, cols := 3,
                             data := [true, false, false, true, true, false] })] }

/-- The measurement location already recorded under the name `"red"` in
`sDup`. -/
def locRed : MeasLoc := { path := "red.tif", layer := none }

/-- A bundler that already holds a band called `"red"`. -/
def sDup : Bundler :=
  { measurementsPerGrid := [(gridA, [("red", locRed)])], maskByGrid := [] }

/-- An integer image of two pixels, the first equal to the default nodata 0. -/
def imgW : Img :=
  { isFloat := false, rows := 1, cols := 2, data := [Val.fin 0, Val.fin 5] }

/-- A bundler with one band recorded on `gridA` and the coverage mask
`[true, false]`. -/
def sW : Bundler :=
  { measurementsPerGrid := [(gridA, [("x", locRed)])],
    maskByGrid := [(gridA, { rows := 1, cols := 2, data := [true, false] })] }

/-! ## Helper lemmas -/

theorem unionAll_nil : unionAll [] = (∅ : Geom) := by
  ext p
  simp [unionAll]

theorem assocFind_assocSet_self {α β : Type} [DecidableEq α]
    (l : List (α × β)) (k : α) (v : β) :
    assocFind (assocSet l k v) k = some v := by
  induction l with
  | nil => simp [assocSet, assocFind]
  | cons p rest ih =>
    obtain ⟨k', v'⟩ := p
    by_cases h : k' = k <;> simp [assocSet, assocFind, h, ih]

theorem insDesc_ne_nil {α : Type} (key : α → Nat) (x : α) (l : List α) :
    insDesc key x l ≠ [] := by
  cases l with
  | nil => simp [insDesc]
  | cons y ys =>
    simp only [insDesc]
    split <;> simp

theorem stableSortDesc_nil_iff {α : Type} (key : α → Nat) (l : List α) :
    stableSortDesc key l = [] ↔ l = [] := by
  cases l with
  | nil => simp [stableSortDesc]
  | cons x xs => simp [stableSortDesc, insDesc_ne_nil]

theorem mem_insDesc {α : Type} (key : α → Nat) (x a : α) (l : List α) :
    a ∈ insDesc key x l ↔ a = x ∨ a ∈ l := by
  induction l with
  | nil => simp [insDesc]
  | cons y ys ih =>
    simp only [insDesc]
    split
    · simp only [List.mem_cons, ih]
      tauto
    · simp only [List.mem_cons]

theorem mem_stableSortDesc {α : Type} (key : α → Nat) (a : α) (l : List α) :
    a ∈ stableSortDesc key l ↔ a ∈ l := by
  induction l with
  | nil => simp [stableSortDesc]
  | cons x xs ih => simp [stableSortDesc, mem_insDesc, ih]

/-- The head of the descending stable sort has a maximal key. -/
theorem sortDesc_head_key_max {α : Type} (key : α → Nat) :
    ∀ (l : List α) (d : α) (t : List α), stableSortDesc key l = d :: t →
      ∀ y ∈ l, key y ≤ key d := by
  intro l
  induction l with
  | nil => intro d t h; simp [stableSortDesc] at h
  | cons x xs ih =>
    intro d t h y hy
    rw [stableSortDesc] at h
    cases hs : stableSortDesc key xs with
    | nil =>
      have hxs : xs = [] := (stableSortDesc_nil_iff key xs).mp hs
      rw [hs] at h
      simp only [insDesc] at h
      injection h with h1 h2
      subst h1
      subst hxs
      rcases List.mem_cons.mp hy with rfl | hy2
      · exact Nat.le_refl _
      · simp at hy2
    | cons h0 t0 =>
      rw [hs] at h
      have hall : ∀ y ∈ xs, key y ≤ key h0 := ih h0 t0 hs
      rw [insDesc] at h
      by_cases hc : key x < key h0
      · rw [if_pos hc] at h
        injection h with h1 h2
        subst h1
        rcases List.mem_cons.mp hy with rfl | hy2
        · exact Nat.le_of_lt hc
        · exact hall y hy2
      · rw [if_neg hc] at h
        injection h with h1 h2
        subst h1
        rcases List.mem_cons.mp hy with rfl | hy2
        · exact Nat.le_refl _
        · exact Nat.le_trans (hall y hy2) (Nat.le_of_not_lt hc)

theorem find?_congr {α : Type} (p q : α → Bool) (l : List α)
    (h : ∀ a ∈ l, p a = q a) : l.find? p = l.find? q := by
  induction l with
  | nil => rfl
  | cons a l ih =>
    have ha := h a (List.mem_cons_self a l)
    cases hqa : q a with
    | false =>
      rw [List.find?_cons_of_neg _ (by simp [ha, hqa]),
        List.find?_cons_of_neg _ (by simp [hqa])]
      exact ih (fun b hb => h b (List.mem_cons_of_mem a hb))
    | true =>
      rw [List.find?_cons_of_pos _ (by rw [ha, hqa]),
        List.find?_cons_of_pos _ hqa]

/-- The head of the descending stable sort is the first element attaining the
maximal key — `sorted(..., reverse=True)` is stable, so ties keep their
insertion order and the popped "default" grid is the first most-populated
one. -/
theorem sortDesc_head_firstMax {α : Type} (key : α → Nat) :
    ∀ (l : List α) (d : α) (t : List α), stableSortDesc key l = d :: t →
      firstMaxBy key l = some d := by
  intro l
  induction l with
  | nil => intro d t h; simp [stableSortDesc] at h
  | cons x xs ih =>
    intro d t h
    rw [stableSortDesc] at h
    cases hs : stableSortDesc key xs with
    | nil =>
      have hxs : xs = [] := (stableSortDesc_nil_iff key xs).mp hs
      rw [hs] at h
      simp only [insDesc] at h
      injection h with h1 h2
      subst h1
      subst hxs
      simp [firstMaxBy]
    | cons h0 t0 =>
      have hall : ∀ y ∈ xs, key y ≤ key h0 := sortDesc_head_key_max key xs h0 t0 hs
      have hfm : firstMaxBy key xs = some h0 := ih h0 t0 hs
      have hh0 : h0 ∈ xs := by
        have hmem : h0 ∈ stableSortDesc key xs := by
          rw [hs]; exact List.mem_cons_self h0 t0
        exact (mem_stableSortDesc key h0 xs).mp hmem
      rw [hs] at h
      rw [insDesc] at h
      by_cases hc : key x < key h0
      · rw [if_pos hc] at h
        injection h with h1 h2
        subst h1
        unfold firstMaxBy
        rw [List.find?_cons_of_neg]
        · rw [find?_congr _ (fun z => xs.all (fun y => key y ≤ key z)) xs ?_]
          · exact hfm
          · intro a _
            cases hq : xs.all (fun y => decide (key y ≤ key a)) with
            | false => simp [List.all_cons, hq]
            | true =>
              have hha : key h0 ≤ key a := by
                have hq2 := List.all_eq_true.mp hq h0 hh0
                simpa using hq2
              have hxa : key x ≤ key a := Nat.le_of_lt (Nat.lt_of_lt_of_le hc hha)
              simp [List.all_cons, hq, hxa]
        · simp only [List.all_cons, List.all_eq_true, Bool.and_eq_true,
            decide_eq_true_eq, not_and]
          intro _ hfa
          exact absurd (hfa h0 hh0) (Nat.not_le.mpr hc)
      · rw [if_neg hc] at h
        injection h with h1 h2
        subst h1
        unfold firstMaxBy
        rw [List.find?_cons_of_pos]
        simp only [List.all_cons, Bool.and_eq_true, decide_eq_true_eq,
          List.all_eq_true]
        exact ⟨Nat.le_refl _,
          fun y hy => Nat.le_trans (hall y hy) (Nat.le_of_not_lt hc)⟩

/-- Unfolding equation of `stage1` at a cons cell. -/
theorem stage1_cons (allNames : List String)
    (acc : List (String × Grid × Measurements)) (g : Grid)
    (ms : Measurements) (rest : List (Grid × Measurements)) :
    stage1 allNames acc ((g, ms) :: rest) =
      (match stage1NameOf ms allNames with
       | none => none
       | some n =>
         if (acc.map Prod.fst).contains n then none
         else stage1 allNames (acc ++ [(n, (g, ms))]) rest) := rfl

/-- Unfolding equation of `stage2` at a cons cell. -/
theorem stage2_cons (acc : List (String × Grid × Measurements)) (g : Grid)
    (ms : Measurements) (rest : List (Grid × Measurements)) :
    stage2 acc ((g, ms) :: rest) =
      (if (acc.map Prod.fst).contains (resName g) then none
       else stage2 (acc ++ [(resName g, (g, ms))]) rest) := rfl

/-- A successful first naming stage only ever appends to the accumulated
named grids, so the `"default"` entry it starts from survives at the head. -/
theorem stage1_append (allNames : List String) :
    ∀ (rest : List (Grid × Measurements))
      (acc l : List (String × Grid × Measurements)),
      stage1 allNames acc rest = some l → ∃ t, l = acc ++ t := by
  intro rest
  induction rest with
  | nil =>
    intro acc l h
    obtain rfl : acc = l := by simpa [stage1] using h
    exact ⟨[], (List.append_nil acc).symm⟩
  | cons gm rest ih =>
    intro acc l h
    obtain ⟨g, ms⟩ := gm
    rw [stage1_cons] at h
    cases hn : stage1NameOf ms allNames with
    | none => rw [hn] at h; exact Option.noConfusion h
    | some n =>
      rw [hn] at h
      have h' : (if (acc.map Prod.fst).contains n then none
          else stage1 allNames (acc ++ [(n, (g, ms))]) rest) = some l := h
      by_cases hc : (acc.map Prod.fst).contains n
      · rw [if_pos hc] at h'; exact Option.noConfusion h'
      · rw [if_neg hc] at h'
        obtain ⟨t, rfl⟩ := ih (acc ++ [(n, (g, ms))]) l h'
        exact ⟨(n, (g, ms)) :: t, by simp⟩

/-- A successful resolution naming stage only ever appends to the accumulated
named grids. -/
theorem stage2_append :
    ∀ (rest : List (Grid × Measurements))
      (acc l : List (String × Grid × Measurements)),
      stage2 acc rest = some l → ∃ t, l = acc ++ t := by
  intro rest
  induction rest with
  | nil =>
    intro acc l h
    obtain rfl : acc = l := by simpa [stage2] using h
    exact ⟨[], (List.append_nil acc).symm⟩
  | cons gm rest ih =>
    intro acc l h
    obtain ⟨g, ms⟩ := gm
    rw [stage2_cons] at h
    by_cases hc : (acc.map Prod.fst).contains (resName g)
    · rw [if_pos hc] at h; exact Option.noConfusion h
    · rw [if_neg hc] at h
      obtain ⟨t, rfl⟩ := ih (acc ++ [(resName g, (g, ms))]) l h
      exact ⟨(resName g, (g, ms)) :: t, by simp⟩

/-! ## Claim theorems -/

/-- C8: the polygon produced by the per-grid extraction pipeline
(`_grid_to_poly`: vectorize, convex hull, one-pixel buffer, one-pixel
simplify, intersect with the pixel-space bounding box, affine-transform) is
fully contained within the grid's pixel-space bounding box mapped to CRS
space — whatever the external vectorization, hull, buffer and simplify
primitives produce, since the pipeline clips to the box before
transforming. -/
theorem c8_geometry_containment (ops : GeomOps) (grid : Grid) (mask : Mask) :
    grid_to_poly ops grid mask ⊆
      affineImage grid.affine (pixelBox (mask.cols : ℚ) (mask.rows : ℚ)) := by
  intro p hp
  exact Set.image_subset (affinePt grid.affine) Set.inter_subset_right hp

/-- C5: `consume_and_get_valid_data` removes every grid's coverage mask from
the registry, leaves the measurements-per-grid map unchanged (so
`_as_named_grids` computed after consumption agrees with the one computed
before), and a second call observes the empty mask map and returns the empty
geometry together with the unchanged drained state. -/
theorem c5_consume_drains_masks (ops : GeomOps) (method : ValidDataMethod)
    (s : Bundler) :
    (consume_and_get_valid_data ops method s).2.maskByGrid = [] ∧
    (consume_and_get_valid_data ops method s).2.measurementsPerGrid =
      s.measurementsPerGrid ∧
    consume_and_get_valid_data ops method
        (consume_and_get_valid_data ops method s).2 =
      ((∅ : Geom), (consume_and_get_valid_data ops method s).2) ∧
    as_named_grids (consume_and_get_valid_data ops method s).2 =
      as_named_grids s := by
  refine ⟨rfl, rfl, ?_, rfl⟩
  show (unionAll (List.map _ (List.reverse [])), _) = _
  rw [List.reverse_nil, List.map_nil, unionAll_nil]
  rfl

/-- C9 (amended): with the `bounds` method, `consume_and_get_valid_data`
ignores the masks' pixel values entirely — the result depends only on which
grids hold masks — and unions each such grid's CRS-space bounding box (the
pixel extent's corners mapped through the grid's affine transform), not its
pixel-space bounding rectangle. -/
theorem c9_bounds_returns_crs_bbox (ops : GeomOps) (s : Bundler) :
    (consume_and_get_valid_data ops ValidDataMethod.bounds s).1 =
      unionAll ((s.maskByGrid.map Prod.fst).reverse.map
        (fun g => boxSet (crsBoundingBox g))) := by
  unfold consume_and_get_valid_data
  rw [← List.map_reverse]
  rw [List.map_map]
  rfl

/-- C9 (counterexample): on a grid whose affine transform is a 10-unit scale,
the `bounds` geometry is not the grid's pixel-space bounding rectangle: the
CRS-space point (25, -15) lies in the result but outside the 3×2 pixel
box. -/
theorem c9_counterexample :
    ¬ (consume_and_get_valid_data opsTriv ValidDataMethod.bounds stateC).1 =
        pixelBox 3 2 := by
  intro h
  have hm : ((25 : ℚ), (-15 : ℚ)) ∈
      (consume_and_get_valid_data opsTriv ValidDataMethod.bounds stateC).1 := by
    refine ⟨boxSet (crsBoundingBox gridC), ?_, ?_⟩
    · simp [consume_and_get_valid_data, per_grid_geom, stateC]
    · refine ⟨?_, ?_, ?_, ?_⟩ <;> norm_num [crsBoundingBox, affinePt, gridC]
  rw [h] at hm
  have h25 : (25 : ℚ) ≤ 3 := hm.2.1
  norm_num at h25

/-- C3: whenever the offered band name is already recorded under any grid,
`record_image` fails with the duplicate-measurement error, which carries the
conflicting sources: the originally recorded location and the newly offered
path. -/
theorem c3_duplicate_error (s : Bundler) (name : String) (grid : Grid)
    (path : String) (img : Img) (layer : Option String) (nodata : Option Val)
    (expandValid : Bool) (loc : MeasLoc)
    (h : findDup s.measurementsPerGrid name = some loc) :
    record_image s name grid path img layer nodata expandValid =
      (s, some (Err.duplicateMeasurement name loc path)) := by
  unfold record_image
  rw [h]

/-- Witness for C3 at a concrete registry: re-recording `"red"` fails with
the error naming the original location and the new path. -/
theorem c3_witness :
    record_image sDup "red" gridB "red2.tif" imEx none none true =
      (sDup, some (Err.duplicateMeasurement "red" locRed "red2.tif")) :=
  c3_duplicate_error sDup "red" gridB "red2.tif" imEx none none true locRed
    (by decide)

/-- C10: if `record_image` raises, the registry state at the moment of the
raise is exactly the state before the call — the duplicate check runs before
the measurement insertion and before any mask expansion, so neither map has
been touched. -/
theorem c10_duplicate_leaves_state_unchanged (s : Bundler) (name : String)
    (grid : Grid) (path : String) (img : Img) (layer : Option String)
    (nodata : Option Val) (expandValid : Bool) (e : Err)
    (h : (record_image s name grid path img layer nodata expandValid).2 = some e) :
    (record_image s name grid path img layer nodata expandValid).1 = s := by
  cases hf : findDup s.measurementsPerGrid name with
  | some loc => simp [record_image, hf]
  | none => simp [record_image, hf] at h

/-- Witness for C10 at a concrete registry: the state returned alongside the
duplicate error is the unmodified `sDup`. -/
theorem c10_witness :
    (record_image sDup "red" gridB "red2.tif" imEx none none true).1 = sDup :=
  c10_duplicate_leaves_state_unchanged sDup "red" gridB "red2.tif" imEx none
    none true (Err.duplicateMeasurement "red" locRed "red2.tif") (by decide)

/-- C7: with no nodata given, `_expand_valid_data_mask` defaults the sentinel
to NaN for floating-point images and to 0 for integer images; the per-pixel
validity is the finiteness test when the sentinel is NaN and the inequality
test otherwise; and exactly this validity list is OR-ed into the grid's
coverage mask (installed as the mask when the grid has none). -/
theorem c7_nodata_default_and_validity (s : Bundler) (g : Grid) (img : Img) :
    (img.isFloat = true →
      defaultNodata img none = Val.nan ∧
      valid_values img (defaultNodata img none) = img.data.map isFiniteVal) ∧
    (img.isFloat = false →
      defaultNodata img none = Val.fin 0 ∧
      valid_values img (defaultNodata img none) =
        img.data.map (fun x => ieeeNe x (Val.fin 0))) ∧
    expand_valid_data_mask s g img none =
      { measurementsPerGrid := s.measurementsPerGrid,
        maskByGrid := assocSet s.maskByGrid g
          (match maskOf s g with
           | none =>
             { rows := img.rows, cols := img.cols,
               data := valid_values img (defaultNodata img none) }
           | some m =>
             { rows := m.rows, cols := m.cols,
               data := List.zipWith (· || ·) m.data
                 (valid_values img (defaultNodata img none)) }) } := by
  refine ⟨?_, ?_, rfl⟩
  · intro h
    simp [defaultNodata, valid_values, isNanVal, h]
  · intro h
    simp [defaultNodata, valid_values, isNanVal, h]

/-- Witness for C7 (its statement quantifies only over data, but the two
dtype branches are implications): instantiated at the integer image `imgW`,
the default sentinel is 0 and the validity list is the inequality test. -/
theorem c7_witness :
    defaultNodata imgW none = Val.fin 0 ∧
    valid_values imgW (defaultNodata imgW none) =
      imgW.data.map (fun x => ieeeNe x (Val.fin 0)) :=
  (c7_nodata_default_and_validity emptyBundler gridA imgW).2.1 (by decide)

/-- C2 (counterexample): on two integer bands over a four-pixel extent, the
code's single interleaved pass returns (2, 1) — band one's low percentile is
taken before band two's zeros have restricted the mask — while the claimed
mask-first-then-percentiles computation returns (10, 1). -/
theorem c2_counterexample :
    (read_valid_mask_and_value_range [true, true, true, true]
        [([10, 10, 2, 2], 0), ([1, 1, 0, 0], 0)] (some (2, 98))).2 = (2, 1) ∧
    claimedStretchRange [true, true, true, true]
        [([10, 10, 2, 2], 0), ([1, 1, 0, 0], 0)] 2 98 = (10, 1) ∧
    ((2 : Int), (1 : Int)) ≠ ((10 : Int), (1 : Int)) := by
  refine ⟨by with_unfolding_all rfl, by with_unfolding_all rfl, by decide⟩

/-- C2 (amended): `read_valid_mask_and_value_range` AND-s every band's
validity — always the plain inequality against that band's nodata — into one
shared mask, but interleaves the percentile computation with the mask
building: band i's low/high nearest-percentiles are taken over the values
selected by the mask as restricted by bands 0..i only (and skipped when every
selected value is zero), folding (max of lows, min of highs) from the widest
64-bit integer seed.  The returned mask is the fully-combined AND across all
bands. -/
theorem c2_interleaved_stretch (mask : List Bool)
    (images : List (List Int × Int)) (lo hi : ℚ) :
    read_valid_mask_and_value_range mask images (some (lo, hi)) =
      (maskAfter mask images, interleavedRange lo hi mask seedRange images) := by
  suffices h : ∀ (imgs : List (List Int × Int)) (m : List Bool) (r : Int × Int),
      imgs.foldl (bandStep (some (lo, hi))) (m, r) =
        (maskAfter m imgs, interleavedRange lo hi m r imgs) by
    exact h images mask seedRange
  intro imgs
  induction imgs with
  | nil => intro m r; rfl
  | cons img rest ih =>
    intro m r
    cases hc : (selectMasked (bandAnd m img) img.1).any (fun x => x != 0) <;>
      simp [List.foldl_cons, bandStep, interleavedRange, maskAfter, hc, ih]

/-- C6 helper: OR-ing more validity bits into a mask never lowers its true
count (for a validity list at least as long as the mask). -/
theorem count_true_zipWith_or (a b : List Bool) (h : a.length ≤ b.length) :
    a.count true ≤ (List.zipWith (· || ·) a b).count true := by
  induction a generalizing b with
  | nil => simp
  | cons x xs ih =>
    cases b with
    | nil => simp at h
    | cons y ys =>
      have h' : xs.length ≤ ys.length := by simpa using h
      have hx := ih ys h'
      cases x <;> cases y <;> simp [List.count_cons] <;> omega

/-- C6 helper: OR-ing never clears a pixel that was already true. -/
theorem get?_zipWith_or (a b : List Bool) (i : Nat) (h : a.length ≤ b.length)
    (ha : a.get? i = some true) :
    (List.zipWith (· || ·) a b).get? i = some true := by
  induction a generalizing b i with
  | nil => cases i <;> exact Option.noConfusion ha
  | cons x xs ih =>
    cases b with
    | nil => simp at h
    | cons y ys =>
      have h' : xs.length ≤ ys.length := by simpa using h
      cases i with
      | zero =>
        have hx : x = true := Option.some.inj ha
        show some (x || y) = some true
        rw [hx, Bool.true_or]
      | succ j =>
        have ha' : xs.get? j = some true := ha
        exact ih ys j h' ha'

/-- C6 helper: the mask map after a successful `record_image` call that
expands valid data — the normalised grid's entry is the old mask OR-ed with
the image's validity (or the validity itself when the grid had no mask). -/
theorem record_image_mask_eq (s : Bundler) (name : String) (grid : Grid)
    (path : String) (img : Img) (layer : Option String) (nodata : Option Val)
    (hok : findDup s.measurementsPerGrid name = none) :
    (record_image s name grid path img layer nodata true).1.maskByGrid =
      assocSet s.maskByGrid (normalizeGrid grid)
        (match assocFind s.maskByGrid (normalizeGrid grid) with
         | none =>
           { rows := img.rows, cols := img.cols,
             data := valid_values img (defaultNodata img nodata) }
         | some m =>
           { rows := m.rows, cols := m.cols,
             data := List.zipWith (· || ·) m.data
               (valid_values img (defaultNodata img nodata)) }) := by
  simp [record_image, hok, expand_valid_data_mask]

/-- C6: a successful `record_image` call with valid-data expansion grows the
normalised grid's coverage mask monotonically: when the grid had no mask the
image's validity becomes the mask, and when it had one the new mask is the
elementwise OR, whose true-pixel count is at least the old one's and which
keeps every pixel that was already true. -/
theorem c6_mask_monotone (s : Bundler) (name : String) (grid : Grid)
    (path : String) (img : Img) (layer : Option String) (nodata : Option Val)
    (hok : findDup s.measurementsPerGrid name = none) :
    (maskOf s (normalizeGrid grid) = none →
      maskOf (record_image s name grid path img layer nodata true).1
          (normalizeGrid grid) =
        some { rows := img.rows, cols := img.cols,
               data := valid_values img (defaultNodata img nodata) }) ∧
    (∀ m : Mask, maskOf s (normalizeGrid grid) = some m →
      m.data.length ≤ img.data.length →
      maskOf (record_image s name grid path img layer nodata true).1
          (normalizeGrid grid) =
        some { rows := m.rows, cols := m.cols,
               data := List.zipWith (· || ·) m.data
                 (valid_values img (defaultNodata img nodata)) } ∧
      countTrue m ≤
        countTrue { rows := m.rows, cols := m.cols,
                    data := List.zipWith (· || ·) m.data
                      (valid_values img (defaultNodata img nodata)) } ∧
      ∀ i : Nat, m.data.get? i = some true →
        (List.zipWith (· || ·) m.data
          (valid_values img (defaultNodata img nodata))).get? i = some true) := by
  have hvv : (valid_values img (defaultNodata img nodata)).length =
      img.data.length := by
    unfold valid_values
    split <;> simp
  constructor
  · intro hnone
    show assocFind (record_image s name grid path img layer nodata true).1.maskByGrid
        (normalizeGrid grid) = _
    rw [record_image_mask_eq s name grid path img layer nodata hok]
    rw [show assocFind s.maskByGrid (normalizeGrid grid) = none from hnone]
    exact assocFind_assocSet_self _ _ _
  · intro m hm hlen
    refine ⟨?_, ?_, ?_⟩
    · show assocFind (record_image s name grid path img layer nodata true).1.maskByGrid
          (normalizeGrid grid) = _
      rw [record_image_mask_eq s name grid path img layer nodata hok]
      rw [show assocFind s.maskByGrid (normalizeGrid grid) = some m from hm]
      exact assocFind_assocSet_self _ _ _
    · exact count_true_zipWith_or m.data _ (by rw [hvv]; exact hlen)
    · intro i hi
      exact get?_zipWith_or m.data _ i (by rw [hvv]; exact hlen) hi

/-- C4: `_as_named_grids` always names the grid with the most measurements
`"default"` (ties broken by insertion order: the default grid is the first
element attaining the maximal measurement count, by stability of the sort);
in the first naming stage a remaining grid holding exactly one measurement is
named after that measurement; and the spec's example — `nbar_blue` and
`nbar_red` on grid A, `nbart_blue` on grid B — yields
`{"default": A with both nbar bands, "nbart_blue": B}`. -/
theorem c4_default_and_single_naming :
    (∀ (m : List (Grid × Measurements))
       (l : List (String × Grid × Measurements)),
      as_named_gridsOf m = Except.ok l →
      ∃ d t, firstMaxBy (fun gm => gm.2.length) m = some d ∧
        l = ("default", d) :: t) ∧
    (∀ (n : String) (loc : MeasLoc) (allNames : List String),
      stage1NameOf [(n, loc)] allNames = some n) ∧
    as_named_grids sExample =
      Except.ok [("default", (normalizeGrid gridA,
          [("nbar_blue", { path := "nbar_blue.tif", layer := none }),
           ("nbar_red", { path := "nbar_red.tif", layer := none })])),
        ("nbart_blue", (normalizeGrid gridB,
          [("nbart_blue", { path := "nbart_blue.tif", layer := none })]))] := by
  refine ⟨?_, ?_, by decide⟩
  · intro m l h
    unfold as_named_gridsOf at h
    split at h
    · exact Except.noConfusion h
    next d rest hs =>
      have hfm := sortDesc_head_firstMax (fun gm => gm.2.length) m d rest hs
      refine ⟨d, ?_⟩
      by_cases he : rest.isEmpty
      · rw [if_pos he] at h
        exact ⟨[], hfm, (Except.ok.inj h).symm⟩
      · rw [if_neg he] at h
        split at h
        next l₁ h1 =>
          obtain ⟨t, rfl⟩ := stage1_append _ rest [("default", d)] l₁ h1
          refine ⟨t, hfm, ?_⟩
          rw [← Except.ok.inj h]
          rfl
        next h1 =>
          split at h
          next l₂ h2 =>
            obtain ⟨t, rfl⟩ := stage2_append rest [("default", d)] l₂ h2
            refine ⟨t, hfm, ?_⟩
            rw [← Except.ok.inj h]
            rfl
          next h2 =>
            by_cases hlen : asciiLetters.length < rest.length
            · rw [if_pos hlen] at h
              exact Except.noConfusion h
            · rw [if_neg hlen] at h
              refine ⟨asciiLetters.zip rest, hfm, ?_⟩
              rw [← Except.ok.inj h]
  · intro n loc allNames
    simp [stage1NameOf, joinUnderscore]

/-- Witness for C4's general conjunct at the spec's example registry. -/
theorem c4_witness :
    ∃ d t,
      firstMaxBy (fun gm : Grid × Measurements => gm.2.length)
          sExample.measurementsPerGrid = some d ∧
      ([("default", (normalizeGrid gridA,
           [("nbar_blue", { path := "nbar_blue.tif", layer := none }),
            ("nbar_red", { path := "nbar_red.tif", layer := none })])),
         ("nbart_blue", (normalizeGrid gridB,
           [("nbart_blue", { path := "nbart_blue.tif", layer := none })]))] :
         List (String × Grid × Measurements)) = ("default", d) :: t :=
  c4_default_and_single_naming.1 sExample.measurementsPerGrid _ (by decide)

/-- C1 (counterexample): a registry of 27 distinct grids, none of which the
common-name or resolution strategies can name, does NOT raise the
too-many-grids error — one grid becomes "default" and the remaining 26 fit
the letter pool. -/
theorem c1_counterexample :
    ¬ (as_named_grids state27 = Except.error Err.tooManyGrids) := by decide

set_option maxRecDepth 4000 in
/-- C1 (amended): the alphabetic fallback draws from `string.ascii_letters` —
52 single-letter names (a-z then A-Z), not 26 — and `_as_named_grids` raises
the too-many-grids error exactly when the earlier stages fail and more grids
than that remain after the default grid; the 27-grid registry of the claim's
example instead succeeds, naming its 26 non-default grids a..z in frequency
order. -/
theorem c1_letter_fallback :
    asciiLetters.length = 52 ∧
    (∀ m : List (Grid × Measurements),
      as_named_gridsOf m = Except.error Err.tooManyGrids ↔
      ∃ d rest, stableSortDesc (fun gm => gm.2.length) m = d :: rest ∧
        rest ≠ [] ∧
        stage1 (iter_names m) [("default", d)] rest = none ∧
        stage2 [("default", d)] rest = none ∧
        asciiLetters.length < rest.length) ∧
    (as_named_grids state27).map
        (fun l => (l.map Prod.fst, l.map (fun e => e.2.1))) =
      Except.ok ("default" :: asciiLetters.take 26,
        (List.range 27).map grid27) := by
  refine ⟨by decide, ?_, by decide⟩
  intro m
  constructor
  · intro h
    unfold as_named_gridsOf at h
    split at h
    · exact absurd (Except.error.inj h) (by decide)
    next d rest hs =>
      by_cases he : rest.isEmpty
      · rw [if_pos he] at h
        exact Except.noConfusion h
      · rw [if_neg he] at h
        split at h
        next l₁ h1 => exact Except.noConfusion h
        next h1 =>
          split at h
          next l₂ h2 => exact Except.noConfusion h
          next h2 =>
            by_cases hlen : asciiLetters.length < rest.length
            · refine ⟨d, rest, hs, ?_, h1, h2, hlen⟩
              intro hcon
              rw [hcon] at he
              exact he rfl
            · rw [if_neg hlen] at h
              exact Except.noConfusion h
  · rintro ⟨d, rest, hs, hne, h1, h2, hlen⟩
    unfold as_named_gridsOf
    simp only [hs]
    rcases rest with _ | ⟨r0, rest0⟩
    · exact absurd rfl hne
    · simp only [h1, h2, List.isEmpty_cons, Bool.false_eq_true, if_false]
      rw [if_pos hlen]

/-- Witness for C6 at a concrete registry: recording a fresh two-pixel band
on a grid whose mask is `[true, false]` produces the mask `[true, true]`,
with the true count growing from 1 to 2. -/
theorem c6_witness :
    maskOf (record_image sW "y" gridA "q.tif" imgW none none true).1
        (normalizeGrid gridA) =
      some { rows := 1, cols := 2,
             data := List.zipWith (· || ·) [true, false]
               (valid_values imgW (defaultNodata imgW none)) } ∧
    countTrue { rows := 1, cols := 2, data := [true, false] } ≤
      countTrue { rows := 1, cols := 2,
                  data := List.zipWith (· || ·) [true, false]
                    (valid_values imgW (defaultNodata imgW none)) } ∧
    ∀ i : Nat, ([true, false] : List Bool).get? i = some true →
      (List.zipWith (· || ·) [true, false]
        (valid_values imgW (defaultNodata imgW none))).get? i = some true :=
  (c6_mask_monotone sW "y" gridA "q.tif" imgW none none (by decide)).2
    { rows := 1, cols := 2, data := [true, false] } (by decide) (by decide)

end Eod
